import Mathlib

/-!
Verification of the NeuroLoop streaming DSP core (C++ template library)
against its natural-language specification.

Each module below is a shallow embedding of the corresponding C++ class or
free function.  Machine integers are modelled as follows:

* the unsigned index type (indextype_t, width iw) is a natural number,
  reduced modulo 2 ^ iw exactly where the C++ arithmetic can wrap;
* the sample type (samptype_t, width sw) is a natural number holding the
  raw two's-complement bit pattern; signed interpretation, arithmetic
  shift and wrapping negation are explicit functions on those bits;
* where a module's arithmetic is provably wrap-free by design (the
  auto-ranger halves its operands precisely to stay in range), samples are
  modelled as mathematical integers with the arithmetic shift rendered as
  floor division, which is exact for two's-complement signed arithmetic.

Loops become folds or structural recursion; member functions become pure
functions from the old state (plus inputs) to the new state (plus outputs).
-/

namespace NeuroLoop

/-! ## Two's-complement primitives (nloop-integers / NLOOP_* macros)

`NLOOP_ARITHSHR(X,Y)` is the plain C++ right shift `X >>= Y`: an arithmetic
shift when `X` has a signed type and a logical shift when it is unsigned.
`NLOOP_ARITHSHR_UNSIGNED` is the negate / logical-shift / negate macro.
`NLOOP_UNSIGNED_ISNEG(X)` is `(~X) < X` and `NLOOP_UNSIGNED_NEGATE(X)` is
`X = ~X; X++`, both on a `w`-bit unsigned value. -/

/-- Signed (two's-complement) reading of a raw `w`-bit pattern. -/
def toSigned (w x : ℕ) : ℤ :=
  if x < 2 ^ (w - 1) then (x : ℤ) else (x : ℤ) - 2 ^ w

/-- Raw `w`-bit pattern of an integer (reduction modulo `2 ^ w`). -/
def ofSigned (w : ℕ) (z : ℤ) : ℕ :=
  (z % (2 ^ w : ℤ)).toNat

/-- Plain C++ `>>` on a signed `w`-bit operand: arithmetic shift right,
which is floor division by a power of two on the signed value. -/
def arithShr (w x k : ℕ) : ℕ :=
  ofSigned w (toSigned w x / 2 ^ k)

/-- NLOOP_UNSIGNED_ISNEG: `(~X) < X` on a `w`-bit unsigned value. -/
def unsignedIsNeg (w x : ℕ) : Bool :=
  decide (2 ^ w - 1 - x < x)

/-- NLOOP_UNSIGNED_NEGATE: `X = ~X; X++` on a `w`-bit unsigned value. -/
def unsignedNeg (w x : ℕ) : ℕ :=
  (2 ^ w - 1 - x + 1) % 2 ^ w

/-- NLOOP_ARITHSHR_UNSIGNED: negate if the two's-complement reading is
negative, shift right logically, negate again. -/
def arithShrUnsigned (w x k : ℕ) : ℕ :=
  if unsignedIsNeg w x then unsignedNeg w (unsignedNeg w x >>> k) else x >>> k

/-- The signedness dispatch `if (NLOOP_ISSIGNED(samptype_t)) ARITHSHR else
ARITHSHR_UNSIGNED` used by the averager and the biquads. -/
def shrDispatch (signedS : Bool) (w x k : ℕ) : ℕ :=
  if signedS then arithShr w x k else arithShrUnsigned w x k

/-- Wrapping subtraction `a - b` on raw `m`-modular values (two's-complement
subtraction on `w`-bit operands has `m = 2 ^ w`). -/
def subw (m a b : ℕ) : ℕ :=
  (a + (m - b % m)) % m

/-! ## De-glitcher (nloop-threshold-inc.cpp, nloop_DeGlitcher_t)

The countdown type indextype_t is unsigned; the code only assigns the
configured delays to the countdowns and decrements them behind a
`0 >= countdown` guard, so plain natural numbers model it exactly. -/

/-- State of nloop_DeGlitcher_t. -/
structure DeGlitcher where
  rise_delay : ℕ
  fall_delay : ℕ
  rise_countdown : ℕ
  fall_countdown : ℕ
  last_output : Bool
deriving DecidableEq, Repr

/-- nloop_DeGlitcher_t::ProcessSample: one tick; returns the new state and
the emitted output (the new `last_output`). -/
def DeGlitcher.processSample (dg : DeGlitcher) (indata : Bool) :
    DeGlitcher × Bool :=
  let dg2 :=
    if dg.last_output then
      if indata then
        { dg with fall_countdown := dg.fall_delay }
      else if dg.fall_countdown = 0 then
        { dg with last_output := false, rise_countdown := dg.rise_delay }
      else
        { dg with fall_countdown := dg.fall_countdown - 1 }
    else
      if !indata then
        { dg with rise_countdown := dg.rise_delay }
      else if dg.rise_countdown = 0 then
        { dg with last_output := true, fall_countdown := dg.fall_delay }
      else
        { dg with rise_countdown := dg.rise_countdown - 1 }
  (dg2, dg2.last_output)

/-- nloop_DeGlitcher_t::SetDelays: stores the delays, zeroes both countdowns
and clears `last_output`. -/
def DeGlitcher.setDelays (dg : DeGlitcher) (r f : ℕ) : DeGlitcher :=
  { dg with
    rise_delay := r, fall_delay := f,
    rise_countdown := 0, fall_countdown := 0,
    last_output := false }

/-- Feed a list of samples through a de-glitcher, collecting the outputs. -/
def DeGlitcher.run : DeGlitcher → List Bool → List Bool
  | _, [] => []
  | dg, b :: rest =>
    let s := dg.processSample b
    s.2 :: s.1.run rest

/-! ## Exponential averager (nloop-threshold-inc.cpp, nloop_Averager_t)

samptype_t is modelled as a raw `w`-bit pattern; `coeffbits` is the
compile-time template parameter, `signedS` the signedness of samptype_t. -/

/-- State of nloop_Averager_t (the template parameter `coeffbits` and the
signedness are passed to the member functions instead). -/
structure Averager where
  running_sum : ℕ
  coeff : ℕ
  avgbits : ℕ
deriving DecidableEq, Repr

/-- nloop_Averager_t::UpdateAverage: subtract the previous average from the
running sum and add the new sample, then return the coefficient-scaled
average recomputed from the updated running sum.  All samptype_t additions
and the multiply wrap modulo `2 ^ w`; the shifts dispatch on signedness as
in the source. -/
def Averager.updateAverage (signedS : Bool) (w coeffbits : ℕ)
    (st : Averager) (indata : ℕ) : Averager × ℕ :=
  let outval := shrDispatch signedS w st.running_sum st.avgbits
  let sum1 := subw (2 ^ w) st.running_sum outval
  let sum2 := (sum1 + indata) % 2 ^ w
  let out1 := shrDispatch signedS w sum2 st.avgbits
  let out2 := out1 * st.coeff % 2 ^ w
  let out3 := shrDispatch signedS w out2 coeffbits
  ({ st with running_sum := sum2 }, out3)

/-- The output formula asserted by the claim: the coefficient-scaled
average of the running sum as it stood when the call began. -/
def Averager.claimedOutput (signedS : Bool) (w coeffbits : ℕ)
    (st : Averager) : ℕ :=
  shrDispatch signedS w
    (shrDispatch signedS w st.running_sum st.avgbits * st.coeff % 2 ^ w)
    coeffbits

/-! ## Trigger (nloop-trigger-inc.cpp, nloop_Trigger_t)

indextype_t is unsigned; its values are naturals reduced modulo a modulus
`M` (`M = 2 ^ width`).  Additions that can wrap carry an explicit `% M`;
decrements are guarded by `> 0` tests in the source, so natural
subtraction is exact.  Unsigned comparisons are comparisons of the reduced
values. -/

/-- The trigger state enum (trigstate_t). -/
inductive TrigState where
  | idle : TrigState
  | waitRise : TrigState
  | waitFall : TrigState
  | waitCool : TrigState
deriving DecidableEq, Repr

/-- State of nloop_Trigger_t: configuration plus transient state. -/
structure Trigger where
  trig_duration : ℕ
  trig_cooldown_time : ℕ
  reraise_ok : Bool
  state : TrigState
  timeout_left : ℕ
  saved_target : ℕ
  prev_signal : ℕ
  unwrap_offset : ℕ
deriving DecidableEq, Repr

/-- One per-tick input to nloop_Trigger_t::ProcessSample: the timing
signal, the target, the period, the detect flag and the value the shared
`trigger_count_left` reference holds when the call is made. -/
structure TrigIn where
  sig : ℕ
  target : ℕ
  period : ℕ
  detect : Bool
  tcl : ℕ
deriving DecidableEq, Repr

/-- nloop_Trigger_t::ProcessSample without the final output computation:
the switch on `state`.  Returns the new trigger state and the new value of
the `trigger_count_left` reference. -/
def Trigger.step (M : ℕ) (tr : Trigger) (i : TrigIn) : Trigger × ℕ :=
  match tr.state with
  | TrigState.waitRise =>
    let v1 := (i.sig + tr.unwrap_offset) % M
    let wrapped : Bool := decide ((v1 + i.period / 2) % M < tr.prev_signal)
    let uo := if wrapped then (tr.unwrap_offset + i.period) % M
              else tr.unwrap_offset
    let v2 := if wrapped then (v1 + i.period) % M else v1
    let tr1 := { tr with unwrap_offset := uo, prev_signal := v2 }
    if tr1.saved_target ≤ v2 then
      ({ tr1 with timeout_left := tr1.trig_duration,
                  state := TrigState.waitFall }, i.tcl)
    else (tr1, i.tcl)
  | TrigState.waitFall =>
    let t1 := if 0 < tr.timeout_left then tr.timeout_left - 1
              else tr.timeout_left
    if t1 = 0 then
      ({ tr with timeout_left := tr.trig_cooldown_time,
                 state := TrigState.waitCool }, i.tcl)
    else ({ tr with timeout_left := t1 }, i.tcl)
  | TrigState.waitCool =>
    let t1 := if 0 < tr.timeout_left then tr.timeout_left - 1
              else tr.timeout_left
    if t1 = 0 then
      if !i.detect || tr.reraise_ok then
        ({ tr with timeout_left := t1, state := TrigState.idle }, i.tcl)
      else ({ tr with timeout_left := t1 }, i.tcl)
    else ({ tr with timeout_left := t1 }, i.tcl)
  | TrigState.idle =>
    if i.detect ∧ 0 < i.tcl then
      let st1 := i.target
      let st2 := if st1 ≤ i.sig then (st1 + i.period) % M else st1
      let st3 := if st2 ≤ i.sig then (st2 + i.period) % M else st2
      ({ tr with state := TrigState.waitRise, saved_target := st3,
                 unwrap_offset := 0, prev_signal := i.sig }, i.tcl - 1)
    else (tr, i.tcl)

/-- nloop_Trigger_t::ProcessSample: the switch followed by the return value
`NLOOP_TSTATE_WAITFALL == state` computed on the post-switch state. -/
def Trigger.processSample (M : ℕ) (tr : Trigger) (i : TrigIn) :
    Trigger × ℕ × Bool :=
  let s := tr.step M i
  (s.1, s.2, decide (s.1.state = TrigState.waitFall))

/-- State of the trigger after processing ticks `0 .. t-1` of an input
stream (so `trajectory M ins tr0 0 = tr0`, and each later index is the
state after one more call to ProcessSample). -/
def Trigger.trajectory (M : ℕ) (ins : ℕ → TrigIn) (tr0 : Trigger) :
    ℕ → Trigger
  | 0 => tr0
  | t + 1 => ((Trigger.trajectory M ins tr0 t).step M (ins t)).1

/-- Output reported by tick `t` (the boolean ProcessSample returns on the
call that consumes `ins t`). -/
def Trigger.outputAt (M : ℕ) (ins : ℕ → TrigIn) (tr0 : Trigger)
    (t : ℕ) : Bool :=
  (Trigger.processSample M (Trigger.trajectory M ins tr0 t) (ins t)).2.2

/-! ## Trigger bank (nloop-trigger-inc.cpp, nloop_TriggerBank_t) -/

/-- Pointwise update of a `[bank][chan]`-indexed family. -/
def updCell {α : Type} (f : ℕ → ℕ → α) (b c : ℕ) (v : α) : ℕ → ℕ → α :=
  fun b2 c2 => if b2 = b ∧ c2 = c then v else f b2 c2

/-- State of nloop_TriggerBank_t. -/
structure TriggerBank where
  trigger_count_left : ℕ
  window_time_left : ℕ
  triggers : ℕ → ℕ → Trigger
  enabled : ℕ → ℕ → Bool
  banks_active : ℕ
  chans_active : ℕ

/-- The body of the per-cell loop in nloop_TriggerBank_t::ProcessSamples:
threads the trigger array, the shared quota and the output slice through
one `(bank, chan)` cell. -/
def TriggerBank.cellPass (M : ℕ) (enabled : ℕ → ℕ → Bool)
    (sampvals targetvals periods : ℕ → ℕ → ℕ)
    (detectflags : ℕ → ℕ → Bool)
    (acc : (ℕ → ℕ → Trigger) × ℕ × (ℕ → ℕ → Bool)) (bc : ℕ × ℕ) :
    (ℕ → ℕ → Trigger) × ℕ × (ℕ → ℕ → Bool) :=
  let b := bc.1
  let c := bc.2
  let trigs := acc.1
  let tcl := acc.2.1
  let outs := acc.2.2
  if enabled b c then
    let r := (trigs b c).processSample M
      ⟨sampvals b c, targetvals b c, periods b c, detectflags b c, tcl⟩
    (updCell trigs b c r.1, r.2.1, updCell outs b c r.2.2)
  else
    (trigs, tcl, updCell outs b c false)

/-- Row-major list of the active cells scanned by ProcessSamples. -/
def activeCells (banks chans : ℕ) : List (ℕ × ℕ) :=
  (List.range banks).flatMap fun b => (List.range chans).map fun c => (b, c)

/-- nloop_TriggerBank_t::ProcessSamples: decrement the window if it is
positive, otherwise zero the quota; then dispatch every enabled cell of
the active subrectangle to its trigger, threading the shared quota, and
write each returned boolean (false for disabled cells) to the output
slice.  Returns the new bank state and the updated output slice. -/
def TriggerBank.processSamples (M : ℕ) (bk : TriggerBank)
    (sampvals targetvals periods : ℕ → ℕ → ℕ)
    (detectflags : ℕ → ℕ → Bool) (trigsout : ℕ → ℕ → Bool) :
    TriggerBank × (ℕ → ℕ → Bool) :=
  let wtl2 := if 0 < bk.window_time_left then bk.window_time_left - 1
              else bk.window_time_left
  let tcl0 := if 0 < bk.window_time_left then bk.trigger_count_left else 0
  let r := (activeCells bk.banks_active bk.chans_active).foldl
    (TriggerBank.cellPass M bk.enabled sampvals targetvals periods
      detectflags)
    (bk.triggers, tcl0, trigsout)
  ({ bk with window_time_left := wtl2, trigger_count_left := r.2.1,
             triggers := r.1 }, r.2.2)

/-! ## Peak-trough-zero-crossing analytic estimator
(nloop-analytic-pt implementation, nloop_Analytic_PTZC_t)

Parameters: `signedS` and `sw` describe samptype_t (signedness and bit
width, values held as raw bit patterns); `iw` is the bit width of the
unsigned indextype_t.  The counter increments and the `<<= 1` of the
period wrap modulo `2 ^ iw` exactly as the C++ unsigned arithmetic does;
the level shift and negation wrap modulo `2 ^ sw`. -/

/-- State of nloop_Analytic_PTZC_t. -/
structure PTZC where
  zero_level : ℕ
  min_zc_gap : ℕ
  max_mag_seen : ℕ
  last_mag : ℕ
  since_rise_count : ℕ
  since_fall_count : ℕ
  last_period : ℕ
deriving DecidableEq, Repr

/-- nloop_Analytic_PTZC_t::ResetState: zero level 0, `min_zc_gap` at
NLOOP_MAXVAL(indextype_t) (suppressing all crossings), all state zero. -/
def PTZC.resetState (iw : ℕ) : PTZC :=
  ⟨0, 2 ^ iw - 1, 0, 0, 0, 0, 0⟩

/-- The samptype_t comparison `a > b` (signed compares bit patterns as
two's complement; unsigned compares them directly). -/
def sampGt (signedS : Bool) (sw a b : ℕ) : Bool :=
  if signedS then decide (toSigned sw b < toSigned sw a) else decide (b < a)

/-- nloop_Analytic_PTZC_t::HandleSample: one processing step.  Counters
increment (wrapping), the sample is level-shifted, its sign and magnitude
are taken with the signedness-appropriate helpers (both compute the
two's-complement negation on the raw bits), the running maximum is
updated, and a rising or falling zero crossing is recorded when the sign
condition and the `min_zc_gap` guard allow it. -/
def PTZC.handleSample (signedS : Bool) (sw iw : ℕ) (e : PTZC)
    (sampval : ℕ) : PTZC :=
  let sr := (e.since_rise_count + 1) % 2 ^ iw
  let sf := (e.since_fall_count + 1) % 2 ^ iw
  let v := subw (2 ^ sw) sampval e.zero_level
  let is_negative :=
    if signedS then decide (toSigned sw v < 0) else unsignedIsNeg sw v
  let thismag := if is_negative then subw (2 ^ sw) 0 v else v
  let mm := if sampGt signedS sw thismag e.max_mag_seen then thismag
            else e.max_mag_seen
  if sf < sr then
    if !is_negative ∧ e.min_zc_gap ≤ sf then
      { e with last_period := 2 * (sr - sf) % 2 ^ iw,
               last_mag := mm, max_mag_seen := thismag,
               since_rise_count := 0, since_fall_count := sf }
    else
      { e with since_rise_count := sr, since_fall_count := sf,
               max_mag_seen := mm }
  else
    if is_negative ∧ e.min_zc_gap ≤ sr then
      { e with last_period := 2 * (sf - sr) % 2 ^ iw,
               last_mag := mm, max_mag_seen := thismag,
               since_fall_count := 0, since_rise_count := sr }
    else
      { e with since_rise_count := sr, since_fall_count := sf,
               max_mag_seen := mm }

/-- State of the estimator after the first `n` HandleSample calls of an
input stream, starting from ResetState. -/
def PTZC.run (signedS : Bool) (sw iw : ℕ) (stream : ℕ → ℕ) : ℕ → PTZC
  | 0 => PTZC.resetState iw
  | n + 1 =>
    (PTZC.run signedS sw iw stream n).handleSample signedS sw iw (stream n)

/-! ## FIR filter (nloop-fir-inc.cpp, nloop_FIRFilter_t)

The multiply-accumulate wraps modulo `2 ^ w` (two's-complement bit
patterns; the wrapped product is the same for signed and unsigned
operands).  The final `NLOOP_ARITHSHR(running_total, fracbits)` is the
plain C++ `>>`, applied without a signedness dispatch: an arithmetic shift
when samptype_t is signed and a LOGICAL shift when it is unsigned. -/

/-- nloop_FIRFilter_t::ApplyFIROnceLinear. -/
def applyFIROnceLinear (signedS : Bool) (w : ℕ) (coeffs : ℕ → ℕ)
    (coeffcount fracbits : ℕ) (inbuf : ℕ → ℕ) : ℕ :=
  let total := (List.range coeffcount).foldl
    (fun acc k => (acc + inbuf k * coeffs k) % 2 ^ w) 0
  if signedS then arithShr w total fracbits else total >>> fracbits

/-- nloop_FIRFilter_t::ApplyFIROnceCircular: same accumulation over a
mask-wrapped circular buffer, same final shift. -/
def applyFIROnceCircular (signedS : Bool) (w : ℕ) (coeffs : ℕ → ℕ)
    (coeffcount fracbits : ℕ) (inbuf : ℕ → ℕ) (inptr inbufmask : ℕ) : ℕ :=
  let total := ((List.range coeffcount).foldl
    (fun (st : ℕ × ℕ) k =>
      ((st.1 + inbuf (st.2 &&& inbufmask) * coeffs k) % 2 ^ w,
        (st.2 &&& inbufmask) + 1))
    (0, inptr)).1
  if signedS then arithShr w total fracbits else total >>> fracbits

/-! ## IIR biquad bank coefficients (nloop-biquads-inc.cpp)

Only the coefficient state is embedded: nloop_IIRFilterBank_t's
SetCoefficients (the subject of the claim) touches nothing else (the
chains' circular sample buffers and stage counts are untouched by it). -/

/-- One biquad's coefficient record (den0 is stored as its bit count). -/
structure BiquadCoeffs where
  den0_bits : ℕ
  den1 : ℤ
  den2 : ℤ
  num0 : ℤ
  num1 : ℤ
  num2 : ℤ
deriving DecidableEq, Repr

/-- nloop_IIRBiquadChain_t::SetCoefficients: bounds-checked write of one
stage's record in a chain (a chain is its stage-indexed records here). -/
def chainSetCoefficients (stagecount : ℕ) (ch : ℕ → BiquadCoeffs)
    (stagenum : ℤ) (r : BiquadCoeffs) : ℕ → BiquadCoeffs :=
  if 0 ≤ stagenum ∧ stagenum < (stagecount : ℤ) then
    fun s => if (s : ℤ) = stagenum then r else ch s
  else ch

/-- nloop_IIRFilterBank_t::SetCoefficients: after the bank bounds check,
the source loops `cidx` over all `chancount` channels but the loop body
writes `biquads[banknum][0]` on every iteration (it never uses `cidx`);
the fold below reproduces that literally. -/
def bankSetCoefficients (stagecount bankcount chancount : ℕ)
    (bq : ℕ → ℕ → ℕ → BiquadCoeffs) (stagenum banknum : ℤ)
    (r : BiquadCoeffs) : ℕ → ℕ → ℕ → BiquadCoeffs :=
  if 0 ≤ banknum ∧ banknum < (bankcount : ℤ) then
    (List.range chancount).foldl
      (fun acc _cidx => updCell acc banknum.toNat 0
        (chainSetCoefficients stagecount (acc banknum.toNat 0) stagenum r))
      bq
  else bq

/-! ## Voting (nloop-voting-inc.cpp, nloop_IdentifyWinningBanks) -/

/-- The inner scan of nloop_IdentifyWinningBanks: `maxval = f 0,
maxidx = 0`, then for `bidx = 1 .. n` keep the strictly larger value.
`winnerScan f n` is the `(maxval, maxidx)` pair after scanning indices
`0 .. n`. -/
def winnerScan (f : ℕ → ℤ) : ℕ → ℤ × ℕ
  | 0 => (f 0, 0)
  | n + 1 =>
    let p := winnerScan f n
    if p.1 < f (n + 1) then (f (n + 1), n + 1) else p

/-- nloop_IdentifyWinningBanks: clamp the active counts from above, fill
both outputs (`selections` with 0, `was_local_winner` with false), then
for each scanned channel record the argmax bank and whether it was an
interior (local) winner. -/
def identifyWinningBanks (B C : ℕ) (source : ℕ → ℕ → ℤ)
    (active_banks active_chans : ℤ) : (ℕ → ℤ) × (ℕ → Bool) :=
  let ab := if (B : ℤ) < active_banks then (B : ℤ) else active_banks
  let ac := if (C : ℤ) < active_chans then (C : ℤ) else active_chans
  (fun c =>
    if (c : ℤ) < ac then
      ((winnerScan (fun b => source b c) (ab.toNat - 1)).2 : ℤ)
    else 0,
   fun c =>
    if (c : ℤ) < ac then
      !(decide ((winnerScan (fun b => source b c) (ab.toNat - 1)).2 = 0) ||
        decide (((winnerScan (fun b => source b c) (ab.toNat - 1)).2 : ℤ) =
          ab - 1))
    else false)

/-! ## Auto-ranger (nloop-preproc implementation, nloop_AutoRanger_t)

samptype_t is modelled as a mathematical integer with the arithmetic
shifts rendered as floor division: this is the exact signed
two's-complement behavior in the wrap-free regime the module's own
halving steps are designed to maintain.  The attenuation while-loop walks
`halfspan` down by halving; a fuel argument (`toNat` of the start value,
always sufficient when `halfspan_wanted ≥ 0`, which the setter's sanity
clamp guarantees) makes it structurally recursive; the C++ loop fails to
terminate in exactly the cases the fuel cannot reach. -/

/-- The attenuation search loop
`while (thishalfspan > halfspan_wanted) { thisatten++; thishalfspan >>= 1 }`
with explicit fuel. -/
def attenGo : ℕ → ℤ → ℤ → ℕ
  | 0, _, _ => 0
  | fuel + 1, hs, wanted =>
    if wanted < hs then attenGo fuel (hs / 2) wanted + 1 else 0

/-- The attenuation count computed by RecalcAttenOffset's while loop. -/
def attenLoop (hs wanted : ℤ) : ℕ :=
  attenGo hs.toNat hs wanted

/-- nloop_AutoRanger_t::SetDesiredRange: halve both goals (arithmetic
shift), clamp `scratchmax` up to `scratchmin`, and return
`(middle_wanted, halfspan_wanted)`. -/
def setDesiredRange (newmin newmax : ℤ) : ℤ × ℤ :=
  let scratchmin := newmin / 2
  let scratchmax0 := newmax / 2
  let scratchmax := if scratchmax0 < scratchmin then scratchmin
                    else scratchmax0
  (scratchmin + scratchmax, scratchmax - scratchmin)

/-- The per-channel body of nloop_AutoRanger_t::RecalcAttenOffset: force
`max ≥ min`, halve both, derive `(middle, halfspan)`, search the
attenuation, and compute the offset.  Returns `(atten_bits, offset)`. -/
def recalcOne (mnv mxv mw hw : ℤ) : ℕ × ℤ :=
  let mx0 := if mxv < mnv then mnv else mxv
  let mn := mnv / 2
  let mx := mx0 / 2
  let middle := mn + mx
  let halfspan := mx - mn
  let atten := attenLoop halfspan hw
  (atten, mw - middle / 2 ^ atten)

/-- The per-channel mapping `out = (in >> atten_bits) + offset` applied by
CalcOutput. -/
def calcOutputOne (x : ℤ) (atten : ℕ) (oset : ℤ) : ℤ :=
  x / 2 ^ atten + oset

/-- State of nloop_AutoRanger_t (`chancount` is passed to the member
functions; the cached running attenuation and offset arrays are
re-derived on demand exactly as the host-side code recomputes them before
every use). -/
structure AutoRanger where
  minvals : ℕ → ℤ
  maxvals : ℕ → ℤ
  middle_wanted : ℤ
  halfspan_wanted : ℤ
  atten_tied : Bool
  countdown_active : Bool
  latch_countdown : ℕ
  latched_attens : ℕ → ℕ
  latched_offsets : ℕ → ℤ

/-- The running attenuation of channel `c` (RecalcAttenOffset's stored
`running_attens[c]`). -/
def AutoRanger.runningAtten (ar : AutoRanger) (c : ℕ) : ℕ :=
  (recalcOne (ar.minvals c) (ar.maxvals c) ar.middle_wanted
    ar.halfspan_wanted).1

/-- The running offset of channel `c` (RecalcAttenOffset's stored
`running_offsets[c]`). -/
def AutoRanger.runningOffset (ar : AutoRanger) (c : ℕ) : ℤ :=
  (recalcOne (ar.minvals c) (ar.maxvals c) ar.middle_wanted
    ar.halfspan_wanted).2

/-- nloop_AutoRanger_t::UpdateFromSample: extend the per-channel observed
minimum and maximum (channels `0 .. C-1`), then advance the latch
countdown, snapshotting the running attenuation and offset when it
fires. -/
def AutoRanger.updateFromSample (C : ℕ) (ar : AutoRanger)
    (data : ℕ → ℤ) : AutoRanger :=
  let ar1 := { ar with
    minvals := fun c =>
      if c < C ∧ data c < ar.minvals c then data c else ar.minvals c,
    maxvals := fun c =>
      if c < C ∧ ar.maxvals c < data c then data c else ar.maxvals c }
  if ar.countdown_active then
    if 0 < ar.latch_countdown then
      { ar1 with latch_countdown := ar.latch_countdown - 1 }
    else
      { ar1 with
        countdown_active := false, latch_countdown := 0,
        latched_attens := fun c =>
          if c < C then ar1.runningAtten c else ar.latched_attens c,
        latched_offsets := fun c =>
          if c < C then ar1.runningOffset c else ar.latched_offsets c }
  else ar1

/-- nloop_AutoRanger_t::CalcOutput: pick latched or running attenuation
and offset, compute the tied group attenuation as the maximum over all
channels, and map each channel of the input slice; cells at or beyond
`chancount` keep the caller's output buffer contents. -/
def AutoRanger.calcOutput (C : ℕ) (ar : AutoRanger) (indata : ℕ → ℤ)
    (outdata0 : ℕ → ℤ) (use_latched : Bool) : ℕ → ℤ :=
  let att := fun c =>
    if use_latched then ar.latched_attens c else ar.runningAtten c
  let oset := fun c =>
    if use_latched then ar.latched_offsets c else ar.runningOffset c
  let groupatten := (List.range C).foldl
    (fun g c => if g < att c then att c else g) 0
  fun c =>
    if c < C then
      calcOutputOne (indata c)
        (if ar.atten_tied then groupatten else att c) (oset c)
    else outdata0 c

/-- nloop_AutoRanger_t::GetRunningOutput. -/
def AutoRanger.getRunningOutput (C : ℕ) (ar : AutoRanger)
    (indata outdata0 : ℕ → ℤ) : ℕ → ℤ :=
  ar.calcOutput C indata outdata0 false

end NeuroLoop

namespace NeuroLoop

/-- C3 counterexample: `set_delays(2, 3)` leaves the rise countdown at 0
(not 2), and on the spec's input the outputs are
`[T,T,T,T,T,T,T,T,T,T,F,F]`, not the claimed `[F,F,F,F,F,T,T,T,T,T,F,F]`:
with both countdowns zeroed the very first high sample raises the output. -/
theorem C3_counterexample :
    (DeGlitcher.setDelays ⟨0, 0, 0, 0, false⟩ 2 3).rise_countdown = 0 ∧
    (DeGlitcher.setDelays ⟨0, 0, 0, 0, false⟩ 2 3).rise_countdown ≠ 2 ∧
    DeGlitcher.run (DeGlitcher.setDelays ⟨0, 0, 0, 0, false⟩ 2 3)
      [true, true, false, true, true, true, true,
        false, false, false, false, true] =
      [true, true, true, true, true, true, true, true, true, true,
        false, false] ∧
    ([true, true, true, true, true, true, true, true, true, true,
        false, false] : List Bool) ≠
      [false, false, false, false, false, true, true, true, true, true,
        false, false] := by
  refine ⟨rfl, by decide, by decide, by decide⟩

/-- C3 amended: after `set_delays(r, f)` the stored delays are `r` and `f`
but both countdowns are set to zero and `last_output` is false;
consequently, with `set_delays(2, 3)` and input
`[T,T,F,T,T,T,T,F,F,F,F,T]` the de-glitcher emits
`[T,T,T,T,T,T,T,T,T,T,F,F]` (the first high sample passes immediately;
afterwards edges are delayed two and three ticks as configured). -/
theorem C3_amended :
    (∀ (dg : DeGlitcher) (r f : ℕ),
      dg.setDelays r f =
        { rise_delay := r, fall_delay := f,
          rise_countdown := 0, fall_countdown := 0, last_output := false }) ∧
    DeGlitcher.run (DeGlitcher.setDelays ⟨0, 0, 0, 0, false⟩ 2 3)
      [true, true, false, true, true, true, true,
        false, false, false, false, true] =
      [true, true, true, true, true, true, true, true, true, true,
        false, false] := by
  constructor
  · intro dg r f
    rfl
  · decide

/-- C6 counterexample: for signed 16-bit samples with `avg_bits = 1`,
`coeff = 1`, `coeff_bits = 0`, state `running_sum = 2` and input `0`, the
code returns 0, while the claimed formula (coefficient-scaled pre-update
average) gives 1: the source recomputes the reported average from the
already-updated running sum. -/
theorem C6_counterexample :
    (Averager.updateAverage true 16 0 ⟨2, 1, 1⟩ 0).2 = 0 ∧
    Averager.claimedOutput true 16 0 ⟨2, 1, 1⟩ = 1 ∧
    (0 : ℕ) ≠ 1 := by
  refine ⟨by decide, by decide, by decide⟩

/-- C6 amended: `update_average(in)` first updates
`running_sum := running_sum − (running_sum >>s avg_bits) + in` and then
returns the coefficient-scaled POST-update average: the returned value is
exactly the claimed formula evaluated on the updated state, for every
signedness, width, state and input. -/
theorem C6_amended (signedS : Bool) (w coeffbits : ℕ)
    (st : Averager) (indata : ℕ) :
    (st.updateAverage signedS w coeffbits indata).2 =
      Averager.claimedOutput signedS w coeffbits
        (st.updateAverage signedS w coeffbits indata).1 := by
  rfl

/-! ### Trigger lemmas -/

/-- ProcessSample never changes the configured duration or cooldown. -/
theorem Trigger.step_config (M : ℕ) (tr : Trigger) (i : TrigIn) :
    ((tr.step M i).1.trig_duration = tr.trig_duration) ∧
    ((tr.step M i).1.trig_cooldown_time = tr.trig_cooldown_time) := by
  cases h : tr.state <;> simp [Trigger.step, h] <;> split_ifs <;> simp

/-- In WaitFall with at least two ticks left, the pulse keeps running. -/
theorem Trigger.step_waitFall_pos (M : ℕ) (tr : Trigger) (i : TrigIn)
    (h : tr.state = TrigState.waitFall) (h2 : 2 ≤ tr.timeout_left) :
    (tr.step M i).1 = { tr with timeout_left := tr.timeout_left - 1 } := by
  have hp : 0 < tr.timeout_left := by omega
  have hz : ¬(tr.timeout_left - 1 = 0) := by omega
  simp [Trigger.step, h, hp, hz]

/-- In WaitFall with one tick left, the trigger moves to WaitCool and
reloads the timeout with the cooldown time. -/
theorem Trigger.step_waitFall_one (M : ℕ) (tr : Trigger) (i : TrigIn)
    (h : tr.state = TrigState.waitFall) (h2 : tr.timeout_left = 1) :
    (tr.step M i).1 =
      { tr with timeout_left := tr.trig_cooldown_time,
                state := TrigState.waitCool } := by
  simp [Trigger.step, h, h2]

/-- In WaitCool with at least two ticks left, the trigger keeps cooling. -/
theorem Trigger.step_waitCool_pos (M : ℕ) (tr : Trigger) (i : TrigIn)
    (h : tr.state = TrigState.waitCool) (h2 : 2 ≤ tr.timeout_left) :
    (tr.step M i).1 = { tr with timeout_left := tr.timeout_left - 1 } := by
  have hp : 0 < tr.timeout_left := by omega
  have hz : ¬(tr.timeout_left - 1 = 0) := by omega
  simp [Trigger.step, h, hp, hz]

/-- When a WaitRise step lands in WaitFall, the timeout was loaded with the
configured pulse duration. -/
theorem Trigger.step_enter_waitFall (M : ℕ) (tr : Trigger) (i : TrigIn)
    (h : tr.state = TrigState.waitRise)
    (h2 : (tr.step M i).1.state = TrigState.waitFall) :
    (tr.step M i).1.timeout_left = tr.trig_duration := by
  by_cases hc :
      (if decide (((i.sig + tr.unwrap_offset) % M + i.period / 2) % M <
          tr.prev_signal) = true
        then tr.saved_target ≤ ((i.sig + tr.unwrap_offset) % M + i.period) % M
        else tr.saved_target ≤ (i.sig + tr.unwrap_offset) % M)
  · simp only [Trigger.step, h] at h2 ⊢
    split_ifs at h2 ⊢ <;> simp_all
  · simp only [Trigger.step, h] at h2 ⊢
    split_ifs at h2 ⊢ <;> simp_all

/-- The tick output is the WaitFall test on the state after that tick. -/
theorem Trigger.outputAt_eq (M : ℕ) (ins : ℕ → TrigIn) (tr0 : Trigger)
    (t : ℕ) :
    Trigger.outputAt M ins tr0 t =
      decide ((Trigger.trajectory M ins tr0 (t + 1)).state =
        TrigState.waitFall) := rfl

/-- C1: once a trigger enters WaitFall (from WaitRise) with configured
duration `d ≥ 1` and cooldown `c ≥ 1`, the pulse output is true for
exactly the `d` ticks starting at the entering tick, false for at least
the following `c` ticks, and throughout those `d + c` ticks the trigger is
never in Idle, so no new pulse can begin; the surrounding quota and window
have no effect on a pulse in flight. -/
theorem C1_trigger_pulse_shape (M : ℕ) (ins : ℕ → TrigIn) (tr0 : Trigger)
    (hd : 1 ≤ tr0.trig_duration) (hc : 1 ≤ tr0.trig_cooldown_time)
    (h0 : tr0.state = TrigState.waitRise)
    (henter : ((tr0.step M (ins 0)).1).state = TrigState.waitFall) :
    (∀ t, t < tr0.trig_duration → Trigger.outputAt M ins tr0 t = true) ∧
    (∀ t, tr0.trig_duration ≤ t →
      t < tr0.trig_duration + tr0.trig_cooldown_time →
      Trigger.outputAt M ins tr0 t = false) ∧
    (∀ t, t < tr0.trig_duration + tr0.trig_cooldown_time →
      (Trigger.trajectory M ins tr0 (t + 1)).state ≠ TrigState.idle) := by
  set d := tr0.trig_duration with hdd
  set c := tr0.trig_cooldown_time with hcc
  have hconfig : ∀ n, (Trigger.trajectory M ins tr0 n).trig_duration = d ∧
      (Trigger.trajectory M ins tr0 n).trig_cooldown_time = c := by
    intro n
    induction n with
    | zero => exact ⟨rfl, rfl⟩
    | succ k ih =>
      have hs := Trigger.step_config M (Trigger.trajectory M ins tr0 k)
        (ins k)
      exact ⟨by rw [Trigger.trajectory, hs.1, ih.1],
             by rw [Trigger.trajectory, hs.2, ih.2]⟩
  have key : ∀ t, t < d + c →
      (t < d → (Trigger.trajectory M ins tr0 (t + 1)).state =
          TrigState.waitFall ∧
        (Trigger.trajectory M ins tr0 (t + 1)).timeout_left = d - t) ∧
      (d ≤ t → (Trigger.trajectory M ins tr0 (t + 1)).state =
          TrigState.waitCool ∧
        (Trigger.trajectory M ins tr0 (t + 1)).timeout_left = c - (t - d)) := by
    intro t
    induction t with
    | zero =>
      intro _
      constructor
      · intro _
        refine ⟨henter, ?_⟩
        have := Trigger.step_enter_waitFall M tr0 (ins 0) h0 henter
        simpa using this
      · intro hd0
        omega
    | succ k ih =>
      intro hk
      have ihk := ih (by omega)
      by_cases hcase : k + 1 < d
      · have hkd : k < d := by omega
        obtain ⟨hst, hto⟩ := ihk.1 hkd
        have h2 : 2 ≤ (Trigger.trajectory M ins tr0 (k + 1)).timeout_left := by
          omega
        have hs := Trigger.step_waitFall_pos M
          (Trigger.trajectory M ins tr0 (k + 1)) (ins (k + 1)) hst h2
        constructor
        · intro _
          refine ⟨?_, ?_⟩
          · show (Trigger.trajectory M ins tr0 (k + 2)).state = _
            rw [Trigger.trajectory, hs]
            exact hst
          · show (Trigger.trajectory M ins tr0 (k + 2)).timeout_left = _
            rw [Trigger.trajectory, hs]
            show (Trigger.trajectory M ins tr0 (k + 1)).timeout_left - 1 =
              d - (k + 1)
            omega
        · intro hdk
          omega
      · by_cases heq : k + 1 = d
        · have hkd : k < d := by omega
          obtain ⟨hst, hto⟩ := ihk.1 hkd
          have h1 : (Trigger.trajectory M ins tr0 (k + 1)).timeout_left = 1 := by
            omega
          have hs := Trigger.step_waitFall_one M
            (Trigger.trajectory M ins tr0 (k + 1)) (ins (k + 1)) hst h1
          constructor
          · intro hlt
            omega
          · intro _
            refine ⟨?_, ?_⟩
            · show (Trigger.trajectory M ins tr0 (k + 2)).state = _
              rw [Trigger.trajectory, hs]
            · show (Trigger.trajectory M ins tr0 (k + 2)).timeout_left = _
              rw [Trigger.trajectory, hs]
              show (Trigger.trajectory M ins tr0 (k + 1)).trig_cooldown_time =
                c - (k + 1 - d)
              rw [(hconfig (k + 1)).2]
              omega
        · have hdk : d ≤ k := by omega
          obtain ⟨hst, hto⟩ := ihk.2 hdk
          have h2 : 2 ≤ (Trigger.trajectory M ins tr0 (k + 1)).timeout_left := by
            omega
          have hs := Trigger.step_waitCool_pos M
            (Trigger.trajectory M ins tr0 (k + 1)) (ins (k + 1)) hst h2
          constructor
          · intro hlt
            omega
          · intro _
            refine ⟨?_, ?_⟩
            · show (Trigger.trajectory M ins tr0 (k + 2)).state = _
              rw [Trigger.trajectory, hs]
              exact hst
            · show (Trigger.trajectory M ins tr0 (k + 2)).timeout_left = _
              rw [Trigger.trajectory, hs]
              show (Trigger.trajectory M ins tr0 (k + 1)).timeout_left - 1 =
                c - (k + 1 - d)
              omega
  refine ⟨?_, ?_, ?_⟩
  · intro t ht
    have := (key t (by omega)).1 ht
    rw [Trigger.outputAt_eq, this.1]
    simp
  · intro t ht1 ht2
    have := (key t (by omega)).2 ht1
    rw [Trigger.outputAt_eq, this.1]
    simp
  · intro t ht
    by_cases htd : t < d
    · have := (key t ht).1 htd
      rw [this.1]
      simp
    · have := (key t ht).2 (by omega)
      rw [this.1]
      simp

/-- C1 witness: a concrete trigger with duration 2 and cooldown 3 entering
WaitFall at tick 0 of a constant input stream. -/
theorem C1_trigger_pulse_shape_witness :
    (1 ≤ (⟨2, 3, false, TrigState.waitRise, 0, 5, 5, 0⟩ :
        Trigger).trig_duration) ∧
    (1 ≤ (⟨2, 3, false, TrigState.waitRise, 0, 5, 5, 0⟩ :
        Trigger).trig_cooldown_time) ∧
    ((∀ t, t < (⟨2, 3, false, TrigState.waitRise, 0, 5, 5, 0⟩ :
          Trigger).trig_duration →
        Trigger.outputAt 256 (fun _ => ⟨5, 5, 10, false, 0⟩)
          ⟨2, 3, false, TrigState.waitRise, 0, 5, 5, 0⟩ t = true) ∧
      (∀ t, (⟨2, 3, false, TrigState.waitRise, 0, 5, 5, 0⟩ :
          Trigger).trig_duration ≤ t →
        t < (⟨2, 3, false, TrigState.waitRise, 0, 5, 5, 0⟩ :
            Trigger).trig_duration +
          (⟨2, 3, false, TrigState.waitRise, 0, 5, 5, 0⟩ :
            Trigger).trig_cooldown_time →
        Trigger.outputAt 256 (fun _ => ⟨5, 5, 10, false, 0⟩)
          ⟨2, 3, false, TrigState.waitRise, 0, 5, 5, 0⟩ t = false) ∧
      (∀ t, t < (⟨2, 3, false, TrigState.waitRise, 0, 5, 5, 0⟩ :
          Trigger).trig_duration +
          (⟨2, 3, false, TrigState.waitRise, 0, 5, 5, 0⟩ :
            Trigger).trig_cooldown_time →
        (Trigger.trajectory 256 (fun _ => ⟨5, 5, 10, false, 0⟩)
          ⟨2, 3, false, TrigState.waitRise, 0, 5, 5, 0⟩ (t + 1)).state ≠
          TrigState.idle)) :=
  ⟨by decide, by decide,
    C1_trigger_pulse_shape 256 (fun _ => ⟨5, 5, 10, false, 0⟩)
      ⟨2, 3, false, TrigState.waitRise, 0, 5, 5, 0⟩
      (by decide) (by decide) (by decide) (by decide)⟩

/-! ### Trigger bank lemmas -/

/-- With the shared quota at zero, ProcessSample returns the quota
unchanged at zero. -/
theorem Trigger.step_tcl_zero (M : ℕ) (tr : Trigger)
    (sv tv pv : ℕ) (df : Bool) :
    (tr.step M ⟨sv, tv, pv, df, 0⟩).2 = 0 := by
  cases h : tr.state <;> simp [Trigger.step, h] <;> split_ifs <;> rfl

/-- With the shared quota at zero, an Idle trigger is left untouched. -/
theorem Trigger.step_idle_zero (M : ℕ) (tr : Trigger)
    (sv tv pv : ℕ) (df : Bool) (h : tr.state = TrigState.idle) :
    (tr.step M ⟨sv, tv, pv, df, 0⟩).1 = tr := by
  simp [Trigger.step, h]

/-- The per-cell dispatch loop, started with a zero quota, keeps the quota
at zero and leaves every Idle trigger Idle. -/
theorem TriggerBank.cellPass_fold_zero (M : ℕ)
    (en : ℕ → ℕ → Bool) (sv tv pv : ℕ → ℕ → ℕ) (df : ℕ → ℕ → Bool) :
    ∀ (cells : List (ℕ × ℕ)) (trigs : ℕ → ℕ → Trigger)
      (outs : ℕ → ℕ → Bool),
      ((cells.foldl (TriggerBank.cellPass M en sv tv pv df)
          (trigs, 0, outs)).2.1 = 0) ∧
      (∀ b c, (trigs b c).state = TrigState.idle →
        ((cells.foldl (TriggerBank.cellPass M en sv tv pv df)
            (trigs, 0, outs)).1 b c).state = TrigState.idle) := by
  intro cells
  induction cells with
  | nil => exact fun trigs outs => ⟨rfl, fun b c h => h⟩
  | cons bc rest ih =>
    intro trigs outs
    by_cases hen : en bc.1 bc.2
    · have hstep :
        TriggerBank.cellPass M en sv tv pv df (trigs, 0, outs) bc =
          (updCell trigs bc.1 bc.2
              ((trigs bc.1 bc.2).step M
                ⟨sv bc.1 bc.2, tv bc.1 bc.2, pv bc.1 bc.2,
                  df bc.1 bc.2, 0⟩).1,
            0,
            updCell outs bc.1 bc.2
              (decide ((((trigs bc.1 bc.2).step M
                ⟨sv bc.1 bc.2, tv bc.1 bc.2, pv bc.1 bc.2,
                  df bc.1 bc.2, 0⟩).1).state = TrigState.waitFall))) := by
        simp [TriggerBank.cellPass, hen, Trigger.processSample,
          Trigger.step_tcl_zero]
      rw [List.foldl_cons, hstep]
      refine ⟨(ih _ _).1, fun b c hidle => ?_⟩
      refine (ih _ _).2 b c ?_
      by_cases hbc : b = bc.1 ∧ c = bc.2
      · obtain ⟨hb, hc⟩ := hbc
        have hidle2 : (trigs bc.1 bc.2).state = TrigState.idle := by
          rw [← hb, ← hc]
          exact hidle
        have hz := Trigger.step_idle_zero M (trigs bc.1 bc.2)
          (sv bc.1 bc.2) (tv bc.1 bc.2) (pv bc.1 bc.2) (df bc.1 bc.2) hidle2
        simp [updCell, hb, hc, hz, hidle2]
      · simp [updCell, hbc]
        exact hidle
    · have hstep :
        TriggerBank.cellPass M en sv tv pv df (trigs, 0, outs) bc =
          (trigs, 0, updCell outs bc.1 bc.2 false) := by
        simp [TriggerBank.cellPass, hen]
      rw [List.foldl_cons, hstep]
      exact ih trigs (updCell outs bc.1 bc.2 false)

/-- C5 counterexample: a one-cell bank with `window_time_left = 1` and
`trigger_count_left = 5`, an enabled Idle trigger and an asserted detect
flag.  The call decrements the window to 0 but does not zero the quota:
the trigger queues a pulse and the call ends with `window_time_left = 0`
and `trigger_count_left = 4`, contradicting the claim that a call ending
with a zero window ends with a zero quota. -/
theorem C5_counterexample :
    ((TriggerBank.processSamples 256
        ⟨5, 1, fun _ _ => ⟨1, 50, false, TrigState.idle, 0, 0, 0, 0⟩,
          fun _ _ => true, 1, 1⟩
        (fun _ _ => 0) (fun _ _ => 0) (fun _ _ => 0) (fun _ _ => true)
        (fun _ _ => false)).1.window_time_left = 0) ∧
    ((TriggerBank.processSamples 256
        ⟨5, 1, fun _ _ => ⟨1, 50, false, TrigState.idle, 0, 0, 0, 0⟩,
          fun _ _ => true, 1, 1⟩
        (fun _ _ => 0) (fun _ _ => 0) (fun _ _ => 0) (fun _ _ => true)
        (fun _ _ => false)).1.trigger_count_left = 4) ∧
    (4 : ℕ) ≠ 0 := by
  refine ⟨by decide, by decide, by decide⟩

/-- C5 amended: the quota is forced to zero at the start of any
process_samples call that BEGINS with `window_time_left = 0` (one call
after the window's decrement reaches 0, not on the reaching call itself);
such a call keeps the window at 0, ends with `trigger_count_left = 0`, and
dispatches every enabled trigger with a zero quota, so every Idle trigger
stays Idle and no new pulse can be queued from that call onward until the
bank is re-primed. -/
theorem C5_amended (M : ℕ) (bk : TriggerBank)
    (sv tv pv : ℕ → ℕ → ℕ) (df : ℕ → ℕ → Bool) (outs0 : ℕ → ℕ → Bool)
    (hw : bk.window_time_left = 0) :
    ((bk.processSamples M sv tv pv df outs0).1.window_time_left = 0) ∧
    ((bk.processSamples M sv tv pv df outs0).1.trigger_count_left = 0) ∧
    (∀ b c, (bk.triggers b c).state = TrigState.idle →
      ((bk.processSamples M sv tv pv df outs0).1.triggers b c).state =
        TrigState.idle) := by
  have hfold := TriggerBank.cellPass_fold_zero M bk.enabled sv tv pv df
    (activeCells bk.banks_active bk.chans_active) bk.triggers outs0
  refine ⟨?_, ?_, ?_⟩
  · simp [TriggerBank.processSamples, hw]
  · simp only [TriggerBank.processSamples, hw]
    simpa using hfold.1
  · simp only [TriggerBank.processSamples, hw]
    simpa using hfold.2

/-- C5 witness: a concrete one-cell bank whose window is already closed. -/
theorem C5_amended_witness :
    ((⟨7, 0, fun _ _ => ⟨1, 50, false, TrigState.idle, 0, 0, 0, 0⟩,
        fun _ _ => true, 1, 1⟩ : TriggerBank).window_time_left = 0) ∧
    (((TriggerBank.processSamples 256
        ⟨7, 0, fun _ _ => ⟨1, 50, false, TrigState.idle, 0, 0, 0, 0⟩,
          fun _ _ => true, 1, 1⟩
        (fun _ _ => 0) (fun _ _ => 0) (fun _ _ => 0) (fun _ _ => true)
        (fun _ _ => false)).1.window_time_left = 0) ∧
      ((TriggerBank.processSamples 256
        ⟨7, 0, fun _ _ => ⟨1, 50, false, TrigState.idle, 0, 0, 0, 0⟩,
          fun _ _ => true, 1, 1⟩
        (fun _ _ => 0) (fun _ _ => 0) (fun _ _ => 0) (fun _ _ => true)
        (fun _ _ => false)).1.trigger_count_left = 0) ∧
      (∀ b c,
        (((⟨7, 0, fun _ _ => ⟨1, 50, false, TrigState.idle, 0, 0, 0, 0⟩,
            fun _ _ => true, 1, 1⟩ : TriggerBank).triggers b c).state =
          TrigState.idle) →
        ((TriggerBank.processSamples 256
          ⟨7, 0, fun _ _ => ⟨1, 50, false, TrigState.idle, 0, 0, 0, 0⟩,
            fun _ _ => true, 1, 1⟩
          (fun _ _ => 0) (fun _ _ => 0) (fun _ _ => 0) (fun _ _ => true)
          (fun _ _ => false)).1.triggers b c).state = TrigState.idle)) :=
  ⟨rfl,
    C5_amended 256
      ⟨7, 0, fun _ _ => ⟨1, 50, false, TrigState.idle, 0, 0, 0, 0⟩,
        fun _ _ => true, 1, 1⟩
      (fun _ _ => 0) (fun _ _ => 0) (fun _ _ => 0) (fun _ _ => true)
      (fun _ _ => false) rfl⟩

/-! ### Analytic estimator: counter wrap (C2) and the all-suppressing
minimum gap (C8) -/

/-- Closed form of the zero-input run used by the C2 counterexample:
feeding `n ≤ 255` zero samples from reset leaves both counters at `n` and
everything else at its reset value. -/
theorem PTZC.run_zero_stream : ∀ n, n ≤ 255 →
    PTZC.run true 16 8 (fun _ => 0) n = ⟨0, 255, 0, 0, n, n, 0⟩ := by
  intro n
  induction n with
  | zero =>
    intro _
    rfl
  | succ k ih =>
    intro hk
    have hkk := ih (by omega)
    have hstep : PTZC.run true 16 8 (fun _ => 0) (k + 1) =
        PTZC.handleSample true 16 8 ⟨0, 255, 0, 0, k, k, 0⟩ 0 := by
      rw [PTZC.run, hkk]
    rw [hstep]
    have hmod : (k + 1) % 256 = k + 1 := Nat.mod_eq_of_lt (by omega)
    simp [PTZC.handleSample, subw, toSigned, sampGt, hmod]

/-- C2 counterexample: with an 8-bit index type, feeding 255 zero samples
from reset brings `since_rise_count` to MAX(I) = 255 (a reachable state);
the 256th handle_sample call then wraps it to 0 instead of saturating. -/
theorem C2_counterexample :
    (PTZC.run true 16 8 (fun _ => 0) 255).since_rise_count = 255 ∧
    (PTZC.run true 16 8 (fun _ => 0) 256).since_rise_count = 0 ∧
    (0 : ℕ) ≠ 255 := by
  have h255 := PTZC.run_zero_stream 255 (by omega)
  have hstep : PTZC.run true 16 8 (fun _ => 0) 256 =
      PTZC.handleSample true 16 8 ⟨0, 255, 0, 0, 255, 255, 0⟩ 0 := by
    rw [show (256 : ℕ) = 255 + 1 from rfl, PTZC.run, h255]
  refine ⟨by rw [h255], by rw [hstep]; decide, by decide⟩

/-- C2 amended: the counters do NOT saturate: on every handle_sample call
each counter increments modulo `2 ^ width(I)`, so a counter that holds
MAX(I) before the tick holds 0 after it (the unconditional `++` wraps; a
zero-crossing reset can only leave it at 0 as well). -/
theorem C2_amended (signedS : Bool) (sw iw : ℕ) (e : PTZC) (x : ℕ) :
    (e.since_rise_count = 2 ^ iw - 1 →
      (e.handleSample signedS sw iw x).since_rise_count = 0) ∧
    (e.since_fall_count = 2 ^ iw - 1 →
      (e.handleSample signedS sw iw x).since_fall_count = 0) := by
  have hpow : 1 ≤ 2 ^ iw := Nat.one_le_two_pow
  constructor
  · intro h
    have hsr : (e.since_rise_count + 1) % 2 ^ iw = 0 := by
      rw [h, Nat.sub_add_cancel hpow, Nat.mod_self]
    simp only [PTZC.handleSample]
    split_ifs <;> simp [hsr]
  · intro h
    have hsf : (e.since_fall_count + 1) % 2 ^ iw = 0 := by
      rw [h, Nat.sub_add_cancel hpow, Nat.mod_self]
    simp only [PTZC.handleSample]
    split_ifs <;> simp [hsf]

/-- C2 witness: a concrete 8-bit-index estimator state with both counters
at MAX(I) = 255; one call leaves both at 0. -/
theorem C2_amended_witness :
    ((⟨0, 255, 0, 0, 255, 255, 0⟩ : PTZC).since_rise_count = 2 ^ 8 - 1 ∧
      ((⟨0, 255, 0, 0, 255, 255, 0⟩ : PTZC).handleSample true 16 8
        7).since_rise_count = 0) ∧
    ((⟨0, 255, 0, 0, 255, 255, 0⟩ : PTZC).since_fall_count = 2 ^ 8 - 1 ∧
      ((⟨0, 255, 0, 0, 255, 255, 0⟩ : PTZC).handleSample true 16 8
        7).since_fall_count = 0) :=
  ⟨⟨by decide, (C2_amended true 16 8 ⟨0, 255, 0, 0, 255, 255, 0⟩ 7).1
      (by decide)⟩,
    ⟨by decide, (C2_amended true 16 8 ⟨0, 255, 0, 0, 255, 255, 0⟩ 7).2
      (by decide)⟩⟩

/-- Closed form of the constant-(-1) run used by the C8 counterexample:
for `1 ≤ n ≤ 254` the counters sit at `n`, the magnitude tracker at 1, and
`last_mag`, `last_period` still at zero. -/
theorem PTZC.run_neg_stream : ∀ n, 1 ≤ n → n ≤ 254 →
    PTZC.run true 16 8 (fun _ => 65535) n = ⟨0, 255, 1, 0, n, n, 0⟩ := by
  intro n
  induction n with
  | zero => omega
  | succ k ih =>
    intro _ hk
    by_cases hk0 : k = 0
    · subst hk0
      decide
    · have hkk := ih (by omega) (by omega)
      have hstep : PTZC.run true 16 8 (fun _ => 65535) (k + 1) =
          PTZC.handleSample true 16 8 ⟨0, 255, 1, 0, k, k, 0⟩ 65535 := by
        rw [PTZC.run, hkk]
      rw [hstep]
      have hmod : (k + 1) % 256 = k + 1 := Nat.mod_eq_of_lt (by omega)
      have hgap : ¬(255 ≤ k + 1) := by omega
      simp [PTZC.handleSample, subw, toSigned, sampGt, hmod, hgap]

/-- C8 counterexample: with an 8-bit index type and `min_zc_gap` at its
reset default MAX(I) = 255, feeding 255 samples of signed value -1
(pattern 65535 on 16 bits) makes the counters reach `min_zc_gap`, so the
255th call records a falling crossing and sets `last_mag` to 1, which is
not its reset value 0. -/
theorem C8_counterexample :
    (PTZC.run true 16 8 (fun _ => 65535) 255).last_mag = 1 ∧
    (1 : ℕ) ≠ 0 := by
  have h254 := PTZC.run_neg_stream 254 (by omega) (by omega)
  have hstep : PTZC.run true 16 8 (fun _ => 65535) 255 =
      PTZC.handleSample true 16 8 ⟨0, 255, 1, 0, 254, 254, 0⟩ 65535 := by
    rw [show (255 : ℕ) = 254 + 1 from rfl, PTZC.run, h254]
  refine ⟨by rw [hstep]; decide, by decide⟩

/-! ### Biquad bank coefficient propagation (C4) -/

/-- C4: the source contradicts its own comments ("Set coefficients for all
channels in this bank"): with one bank hosting two channels, a zero-filled
bank and `set_coefficients(stage 0, bank 0, ...)`, the loop writes channel
0's chain `chancount` times and leaves channel 1's chain untouched at
zero, instead of writing every channel's chain of the bank. -/
theorem C4_bug_eval :
    (bankSetCoefficients 1 1 2 (fun _ _ _ => ⟨0, 0, 0, 0, 0, 0⟩) 0 0
      ⟨3, 1, 2, 4, 5, 6⟩ 0 0 0 = ⟨3, 1, 2, 4, 5, 6⟩) ∧
    (bankSetCoefficients 1 1 2 (fun _ _ _ => ⟨0, 0, 0, 0, 0, 0⟩) 0 0
      ⟨3, 1, 2, 4, 5, 6⟩ 0 1 0 = ⟨0, 0, 0, 0, 0, 0⟩) ∧
    (⟨0, 0, 0, 0, 0, 0⟩ : BiquadCoeffs) ≠ ⟨3, 1, 2, 4, 5, 6⟩ := by
  refine ⟨by decide, by decide, by decide⟩

/-! ### FIR final shift (C9) -/

/-- C9: the FIR's final `NLOOP_ARITHSHR` is the plain C++ shift with no
signedness dispatch.  For an unsigned 8-bit samptype_t holding the
two's-complement sum -2 (one coefficient 127, buffer sample 2, fracbits
1), both FIR variants return the logical shift 254 >>> 1 = 127, not the
255 (= -1, the floor of -2 / 2) that the signed-logical primitive
NLOOP_ARITHSHR_UNSIGNED - and the claim - require; the signed
instantiation of the same filter returns 255. -/
theorem C9_bug_eval :
    applyFIROnceLinear false 8 (fun _ => 127) 1 1 (fun _ => 2) = 127 ∧
    applyFIROnceCircular false 8 (fun _ => 127) 1 1 (fun _ => 2) 0 0 = 127 ∧
    arithShrUnsigned 8 254 1 = 255 ∧
    applyFIROnceLinear true 8 (fun _ => 127) 1 1 (fun _ => 2) = 255 ∧
    (127 : ℕ) ≠ 255 := by
  refine ⟨by decide, by decide, by decide, by decide, by decide⟩

/-! ### Winner-take-all voting (C10) -/

/-- The scan's running maximum is the value at its recorded index. -/
theorem winnerScan_val (f : ℕ → ℤ) : ∀ n,
    (winnerScan f n).1 = f (winnerScan f n).2 := by
  intro n
  induction n with
  | zero => rfl
  | succ k ih =>
    simp only [winnerScan]
    split_ifs <;> simp [ih]

/-- The recorded index stays within the scanned range. -/
theorem winnerScan_idx_le (f : ℕ → ℤ) : ∀ n, (winnerScan f n).2 ≤ n := by
  intro n
  induction n with
  | zero => exact le_refl 0
  | succ k ih =>
    simp only [winnerScan]
    split_ifs
    · simp
    · simpa using le_trans ih (Nat.le_succ k)

/-- Every scanned value is at most the running maximum. -/
theorem winnerScan_le (f : ℕ → ℤ) : ∀ n b, b ≤ n →
    f b ≤ (winnerScan f n).1 := by
  intro n
  induction n with
  | zero =>
    intro b hb
    have : b = 0 := by omega
    subst this
    exact le_refl _
  | succ k ih =>
    intro b hb
    simp only [winnerScan]
    split_ifs with h
    · by_cases hbk : b ≤ k
      · exact le_of_lt (lt_of_le_of_lt (ih b hbk) h)
      · have : b = k + 1 := by omega
        subst this
        exact le_refl _
    · by_cases hbk : b ≤ k
      · exact ih b hbk
      · have : b = k + 1 := by omega
        subst this
        simpa using le_of_not_lt h
  
/-- Ties break toward the lower index: every index strictly below the
recorded one carries a strictly smaller value. -/
theorem winnerScan_lt (f : ℕ → ℤ) : ∀ n b, b < (winnerScan f n).2 →
    f b < (winnerScan f n).1 := by
  intro n
  induction n with
  | zero =>
    intro b hb
    simp [winnerScan] at hb
  | succ k ih =>
    intro b hb
    simp only [winnerScan] at hb ⊢
    split_ifs at hb ⊢ with h
    · have hbk : b ≤ k := by
        have := winnerScan_idx_le f k
        omega
      exact lt_of_le_of_lt (winnerScan_le f k b hbk) h
    · exact ih b hb

/-- C10: for in-range active counts, `identify_winning_banks` selects for
every scanned channel the smallest bank index attaining the maximum of
`source[0..active_banks-1][c]` (the comparison is strict, so ties go to
the lower bank), and channels at or beyond `active_chans` keep the
pre-filled selection 0 and `was_local_winner = false`. -/
theorem C10_identify_winning_banks (B C : ℕ) (source : ℕ → ℕ → ℤ)
    (active_banks active_chans : ℤ)
    (hab1 : 1 ≤ active_banks) (hab2 : active_banks ≤ (B : ℤ))
    (hac : active_chans ≤ (C : ℤ)) :
    (∀ c : ℕ, (c : ℤ) < active_chans →
      ∃ sel : ℕ,
        (identifyWinningBanks B C source active_banks active_chans).1 c =
          (sel : ℤ) ∧
        (sel : ℤ) < active_banks ∧
        (∀ b : ℕ, (b : ℤ) < active_banks → source b c ≤ source sel c) ∧
        (∀ b : ℕ, b < sel → source b c < source sel c)) ∧
    (∀ c : ℕ, active_chans ≤ (c : ℤ) →
      (identifyWinningBanks B C source active_banks active_chans).1 c = 0 ∧
      (identifyWinningBanks B C source active_banks active_chans).2 c =
        false) := by
  have habB : ¬((B : ℤ) < active_banks) := by omega
  have hacC : ¬((C : ℤ) < active_chans) := by omega
  have htn : (active_banks.toNat : ℤ) = active_banks :=
    Int.toNat_of_nonneg (by omega)
  constructor
  · intro c hcc
    refine ⟨(winnerScan (fun b => source b c) (active_banks.toNat - 1)).2,
      ?_, ?_, ?_, ?_⟩
    · simp [identifyWinningBanks, habB, hacC, hcc]
    · have := winnerScan_idx_le (fun b => source b c)
        (active_banks.toNat - 1)
      omega
    · intro b hb
      have hbn : b ≤ active_banks.toNat - 1 := by omega
      have h1 := winnerScan_le (fun b => source b c)
        (active_banks.toNat - 1) b hbn
      have h2 := winnerScan_val (fun b => source b c)
        (active_banks.toNat - 1)
      rw [h2] at h1
      exact h1
    · intro b hb
      have h1 := winnerScan_lt (fun b => source b c)
        (active_banks.toNat - 1) b hb
      have h2 := winnerScan_val (fun b => source b c)
        (active_banks.toNat - 1)
      rw [h2] at h1
      exact h1
  · intro c hcc
    have hno : ¬((c : ℤ) < active_chans) := by omega
    constructor
    · simp [identifyWinningBanks, habB, hacC, hno]
    · simp [identifyWinningBanks, habB, hacC, hno]

/-- C10 witness: two banks, two channels, one channel scanned; bank 1 wins
channel 0 with value 5 over 3; channel 1 is unscanned and keeps 0/false. -/
theorem C10_identify_winning_banks_witness :
    (1 ≤ (2 : ℤ)) ∧ ((2 : ℤ) ≤ ((2 : ℕ) : ℤ)) ∧ ((1 : ℤ) ≤ ((2 : ℕ) : ℤ)) ∧
    ((∀ c : ℕ, (c : ℤ) < (1 : ℤ) →
      ∃ sel : ℕ,
        (identifyWinningBanks 2 2 (fun b _ => if b = 0 then 3 else 5)
          2 1).1 c = (sel : ℤ) ∧
        (sel : ℤ) < (2 : ℤ) ∧
        (∀ b : ℕ, (b : ℤ) < (2 : ℤ) →
          (fun b _ => if b = 0 then (3 : ℤ) else 5) b c ≤
            (fun b _ => if b = 0 then (3 : ℤ) else 5) sel c) ∧
        (∀ b : ℕ, b < sel →
          (fun b _ => if b = 0 then (3 : ℤ) else 5) b c <
            (fun b _ => if b = 0 then (3 : ℤ) else 5) sel c)) ∧
    (∀ c : ℕ, (1 : ℤ) ≤ (c : ℤ) →
      (identifyWinningBanks 2 2 (fun b _ => if b = 0 then 3 else 5)
        2 1).1 c = 0 ∧
      (identifyWinningBanks 2 2 (fun b _ => if b = 0 then 3 else 5)
        2 1).2 c = false)) :=
  ⟨by decide, by decide, by decide,
    C10_identify_winning_banks 2 2 (fun b _ => if b = 0 then 3 else 5)
      2 1 (by decide) (by decide) (by decide)⟩

/-- C8 amended: with `min_zc_gap = MAX(I)` (the reset default), the
estimator leaves `last_period` and `last_mag` at their reset value zero
for the first MAX(I) − 1 handle_sample calls of any stream; only at the
MAX(I)-th call, when a counter first reaches `min_zc_gap`, can an update
occur. -/
theorem C8_amended (signedS : Bool) (sw iw : ℕ) (stream : ℕ → ℕ) (n : ℕ)
    (hn : n < 2 ^ iw - 1) :
    (PTZC.run signedS sw iw stream n).last_period = 0 ∧
    (PTZC.run signedS sw iw stream n).last_mag = 0 := by
  have key : ∀ m, m < 2 ^ iw - 1 →
      (PTZC.run signedS sw iw stream m).zero_level = 0 ∧
      (PTZC.run signedS sw iw stream m).min_zc_gap = 2 ^ iw - 1 ∧
      (PTZC.run signedS sw iw stream m).last_mag = 0 ∧
      (PTZC.run signedS sw iw stream m).since_rise_count = m ∧
      (PTZC.run signedS sw iw stream m).since_fall_count = m ∧
      (PTZC.run signedS sw iw stream m).last_period = 0 := by
    intro m
    induction m with
    | zero =>
      intro _
      simp [PTZC.run, PTZC.resetState]
    | succ k ih =>
      intro hk
      obtain ⟨hz, hg, hm, hr, hf, hp⟩ := ih (by omega)
      have h1 : (k + 1) % 2 ^ iw = k + 1 := Nat.mod_eq_of_lt (by omega)
      have hlt : ¬(k + 1 < k + 1) := by omega
      have hgap : ¬(2 ^ iw - 1 ≤ k + 1) := by omega
      simp only [PTZC.run]
      simp only [PTZC.handleSample, hz, hg, hm, hr, hf, hp, h1]
      simp [hlt, hgap, hz, hg, hm, hp]
  exact ⟨(key n hn).2.2.2.2.2, (key n hn).2.2.1⟩

/-- C8 witness: three calls on a concrete stream with an 8-bit index. -/
theorem C8_amended_witness :
    3 < 2 ^ 8 - 1 ∧
    ((PTZC.run true 16 8 (fun _ => 65535) 3).last_period = 0 ∧
      (PTZC.run true 16 8 (fun _ => 65535) 3).last_mag = 0) :=
  ⟨by decide, C8_amended true 16 8 (fun _ => 65535) 3 (by decide)⟩


/-! ### Auto-ranger (C7) -/

theorem int_ediv_add_one_le (u v q : ℤ) (hq : 0 < q) :
    (u + v + 1) / q ≤ u / q + v / q + 1 := by
  have hlt : (u + v + 1) / q < u / q + v / q + 2 := by
    apply Int.ediv_lt_of_lt_mul hq
    have hu := Int.ediv_add_emod u q
    have hv := Int.ediv_add_emod v q
    have hmu : u % q < q := Int.emod_lt_of_pos u hq
    have hmv : v % q < q := Int.emod_lt_of_pos v hq
    have hnu : 0 ≤ u % q := Int.emod_nonneg u (ne_of_gt hq)
    have hnv : 0 ≤ v % q := Int.emod_nonneg v (ne_of_gt hq)
    nlinarith [hu, hv]
  omega

theorem int_ediv_add_le (u v q : ℤ) (hq : 0 < q) :
    (u + v) / q ≤ u / q + v / q + 1 :=
  le_trans (Int.ediv_le_ediv hq (by omega)) (int_ediv_add_one_le u v q hq)

theorem int_ediv_two_pow (a : ℤ) (k : ℕ) :
    a / 2 / 2 ^ k = a / 2 ^ (k + 1) := by
  have hk : (0 : ℤ) < 2 ^ k := by positivity
  have hk1 : (0 : ℤ) < 2 ^ (k + 1) := by positivity
  have e1 := Int.ediv_add_emod a 2
  have e2 := Int.ediv_add_emod (a / 2) (2 ^ k)
  have m1a : 0 ≤ a % 2 := Int.emod_nonneg a (by norm_num)
  have m1b : a % 2 < 2 := Int.emod_lt_of_pos a (by norm_num)
  have m2a : 0 ≤ a / 2 % 2 ^ k := Int.emod_nonneg _ (ne_of_gt hk)
  have m2b : a / 2 % 2 ^ k < 2 ^ k := Int.emod_lt_of_pos _ hk
  have key : 2 * (a / 2 % 2 ^ k) + a % 2 + 2 ^ (k + 1) * (a / 2 / 2 ^ k) = a := by
    rw [pow_succ]
    nlinarith [e1, e2]
  exact (((Int.ediv_emod_unique hk1).mpr
    ⟨key, by positivity, by rw [pow_succ]; nlinarith⟩).1).symm

theorem attenGo_le : ∀ (fuel : ℕ) (hs w : ℤ), 0 ≤ w →
    hs < 2 ^ fuel * (w + 1) → hs / 2 ^ attenGo fuel hs w ≤ w := by
  intro fuel
  induction fuel with
  | zero =>
    intro hs w hw hlt
    simp only [attenGo, pow_zero, Int.ediv_one]
    omega
  | succ f ih =>
    intro hs w hw hlt
    simp only [attenGo]
    split_ifs with h
    · rw [← int_ediv_two_pow]
      apply ih (hs / 2) w hw
      apply Int.ediv_lt_of_lt_mul (by norm_num)
      calc hs < 2 ^ (f + 1) * (w + 1) := hlt
        _ = 2 ^ f * (w + 1) * 2 := by ring
    · simpa using not_lt.mp h

theorem attenLoop_le (hs w : ℤ) (hw : 0 ≤ w) :
    hs / 2 ^ attenLoop hs w ≤ w := by
  apply attenGo_le hs.toNat hs w hw
  have h1 : hs ≤ (hs.toNat : ℤ) := Int.self_le_toNat hs
  have h2 : (hs.toNat : ℤ) < 2 ^ hs.toNat := by
    exact_mod_cast Nat.lt_two_pow hs.toNat
  have h3 : (1 : ℤ) ≤ w + 1 := by omega
  calc hs < 2 ^ hs.toNat := lt_of_le_of_lt h1 h2
    _ = 2 ^ hs.toNat * 1 := by ring
    _ ≤ 2 ^ hs.toNat * (w + 1) := by
        apply mul_le_mul_of_nonneg_left h3 (by positivity)

theorem recalcOne_bounds (newmin newmax mn mx x : ℤ)
    (hr : newmin ≤ newmax) (h1 : mn ≤ x) (h2 : x ≤ mx) :
    newmin - 2 ≤
      calcOutputOne x
        (recalcOne mn mx (setDesiredRange newmin newmax).1
          (setDesiredRange newmin newmax).2).1
        (recalcOne mn mx (setDesiredRange newmin newmax).1
          (setDesiredRange newmin newmax).2).2 ∧
    calcOutputOne x
        (recalcOne mn mx (setDesiredRange newmin newmax).1
          (setDesiredRange newmin newmax).2).1
        (recalcOne mn mx (setDesiredRange newmin newmax).1
          (setDesiredRange newmin newmax).2).2 ≤ newmax + 1 := by
  have hw12 : newmin / 2 ≤ newmax / 2 := Int.ediv_le_ediv (by norm_num) hr
  have hsdr : setDesiredRange newmin newmax =
      (newmin / 2 + newmax / 2, newmax / 2 - newmin / 2) := by
    simp [setDesiredRange, not_lt.mpr hw12]
  have hmxmn : ¬(mx < mn) := not_lt.mpr (le_trans h1 h2)
  have hrec : recalcOne mn mx (setDesiredRange newmin newmax).1
      (setDesiredRange newmin newmax).2 =
      (attenLoop (mx / 2 - mn / 2) (newmax / 2 - newmin / 2),
        (newmin / 2 + newmax / 2) -
          (mn / 2 + mx / 2) /
            2 ^ attenLoop (mx / 2 - mn / 2) (newmax / 2 - newmin / 2)) := by
    rw [hsdr]
    simp [recalcOne, hmxmn]
  set a := attenLoop (mx / 2 - mn / 2) (newmax / 2 - newmin / 2) with ha
  have hqpos : (0 : ℤ) < 2 ^ a := by positivity
  have hmono : mn / 2 ≤ mx / 2 :=
    Int.ediv_le_ediv (by norm_num) (le_trans h1 h2)
  have hDa : (mx / 2 - mn / 2) / 2 ^ a ≤ newmax / 2 - newmin / 2 :=
    attenLoop_le (mx / 2 - mn / 2) (newmax / 2 - newmin / 2) (by omega)
  -- x is bracketed by twice the halved bounds
  have hlow : mn / 2 * 2 ≤ mn := Int.ediv_mul_le mn (by norm_num)
  have hhigh : mx < (mx / 2 + 1) * 2 := Int.lt_ediv_add_one_mul_self mx (by norm_num)
  -- division bounds for the middle and the span
  have hxup : x / 2 ^ a ≤
      (mn / 2 + mx / 2) / 2 ^ a + (mx / 2 - mn / 2) / 2 ^ a + 1 := by
    have hx2 : x ≤ (mn / 2 + mx / 2) + (mx / 2 - mn / 2) + 1 := by omega
    calc x / 2 ^ a ≤ ((mn / 2 + mx / 2) + (mx / 2 - mn / 2) + 1) / 2 ^ a :=
          Int.ediv_le_ediv hqpos hx2
      _ ≤ (mn / 2 + mx / 2) / 2 ^ a + (mx / 2 - mn / 2) / 2 ^ a + 1 :=
          int_ediv_add_one_le _ _ (2 ^ a) hqpos
  have hxdown : (mn / 2 + mx / 2) / 2 ^ a - (mx / 2 - mn / 2) / 2 ^ a - 1 ≤
      x / 2 ^ a := by
    have hx2 : (mn / 2 + mx / 2) - (mx / 2 - mn / 2) ≤ x := by omega
    have hmid : (mn / 2 + mx / 2) / 2 ^ a ≤
        ((mn / 2 + mx / 2) - (mx / 2 - mn / 2)) / 2 ^ a +
          (mx / 2 - mn / 2) / 2 ^ a + 1 := by
      have := int_ediv_add_le ((mn / 2 + mx / 2) - (mx / 2 - mn / 2))
        (mx / 2 - mn / 2) (2 ^ a) hqpos
      simpa using this
    have := Int.ediv_le_ediv hqpos hx2
    omega
  -- goal bounds from the desired-range halves
  have hb1 : newmin / 2 * 2 ≤ newmin := Int.ediv_mul_le newmin (by norm_num)
  have hb2 : newmin < (newmin / 2 + 1) * 2 :=
    Int.lt_ediv_add_one_mul_self newmin (by norm_num)
  have hb3 : newmax / 2 * 2 ≤ newmax := Int.ediv_mul_le newmax (by norm_num)
  rw [hrec]
  simp only [calcOutputOne]
  constructor
  · omega
  · omega

theorem updateFromSample_fields (C : ℕ) (ar : AutoRanger) (d : ℕ → ℤ) :
    ((ar.updateFromSample C d).middle_wanted = ar.middle_wanted) ∧
    ((ar.updateFromSample C d).halfspan_wanted = ar.halfspan_wanted) ∧
    ((ar.updateFromSample C d).atten_tied = ar.atten_tied) := by
  simp only [AutoRanger.updateFromSample]
  split_ifs <;> simp

theorem foldl_updateFromSample_fields (C : ℕ) (stream : List (ℕ → ℤ)) :
    ∀ ar : AutoRanger,
    ((stream.foldl (AutoRanger.updateFromSample C) ar).middle_wanted =
      ar.middle_wanted) ∧
    ((stream.foldl (AutoRanger.updateFromSample C) ar).halfspan_wanted =
      ar.halfspan_wanted) ∧
    ((stream.foldl (AutoRanger.updateFromSample C) ar).atten_tied =
      ar.atten_tied) := by
  induction stream with
  | nil => exact fun ar => ⟨rfl, rfl, rfl⟩
  | cons d rest ih =>
    intro ar
    have h1 := updateFromSample_fields C ar d
    have h2 := ih (ar.updateFromSample C d)
    exact ⟨h2.1.trans h1.1, h2.2.1.trans h1.2.1, h2.2.2.trans h1.2.2⟩

theorem updateFromSample_min_max (C : ℕ) (ar : AutoRanger) (d : ℕ → ℤ)
    (c : ℕ) :
    ((ar.updateFromSample C d).minvals c ≤ ar.minvals c) ∧
    (ar.maxvals c ≤ (ar.updateFromSample C d).maxvals c) := by
  simp only [AutoRanger.updateFromSample]
  split_ifs <;> constructor <;> simp <;> split_ifs <;> omega

theorem updateFromSample_data (C : ℕ) (ar : AutoRanger) (d : ℕ → ℤ)
    (c : ℕ) (hc : c < C) :
    ((ar.updateFromSample C d).minvals c ≤ d c) ∧
    (d c ≤ (ar.updateFromSample C d).maxvals c) := by
  simp only [AutoRanger.updateFromSample]
  split_ifs <;> constructor <;> simp <;> split_ifs <;> omega

theorem foldl_min_max (C : ℕ) (stream : List (ℕ → ℤ)) :
    ∀ (ar : AutoRanger) (c : ℕ),
    ((stream.foldl (AutoRanger.updateFromSample C) ar).minvals c ≤
      ar.minvals c) ∧
    (ar.maxvals c ≤
      (stream.foldl (AutoRanger.updateFromSample C) ar).maxvals c) := by
  induction stream with
  | nil => exact fun ar c => ⟨le_refl _, le_refl _⟩
  | cons d rest ih =>
    intro ar c
    have h1 := updateFromSample_min_max C ar d c
    have h2 := ih (ar.updateFromSample C d) c
    exact ⟨h2.1.trans h1.1, h1.2.trans h2.2⟩

theorem foldl_mem_bounds (C : ℕ) (stream : List (ℕ → ℤ)) :
    ∀ (ar : AutoRanger) (c : ℕ), c < C → ∀ x : ℤ,
    x ∈ stream.map (fun d => d c) →
    ((stream.foldl (AutoRanger.updateFromSample C) ar).minvals c ≤ x) ∧
    (x ≤ (stream.foldl (AutoRanger.updateFromSample C) ar).maxvals c) := by
  induction stream with
  | nil =>
    intro ar c _ x hx
    simp at hx
  | cons d rest ih =>
    intro ar c hc x hx
    simp only [List.map_cons, List.mem_cons] at hx
    rcases hx with hx | hx
    · subst hx
      have h1 := updateFromSample_data C ar d c hc
      have h2 := foldl_min_max C rest (ar.updateFromSample C d) c
      exact ⟨h2.1.trans h1.1, h1.2.trans h2.2⟩
    · exact ih (ar.updateFromSample C d) c hc x hx

theorem getRunningOutput_untied (C : ℕ) (ar : AutoRanger)
    (indata outdata0 : ℕ → ℤ) (c : ℕ) (hc : c < C)
    (ht : ar.atten_tied = false) :
    ar.getRunningOutput C indata outdata0 c =
      calcOutputOne (indata c) (ar.runningAtten c) (ar.runningOffset c) := by
  simp [AutoRanger.getRunningOutput, AutoRanger.calcOutput, hc, ht]

/-- C7 counterexample: two concrete auto-rangers violate the claimed
running-output interval `[newmin - 1, newmax + 1]`.
Untied, one channel, desired range `[1, 2]`, stream `[2, 14]`: the sample
2 maps to -1, below `newmin - 1 = 0`.
Channel-tied, two channels, desired range `[0, 2]`: channel 0 sees
`[0, 16000]` (attenuation 12) while channel 1 sits at the constant 1000
(offset -999 computed for attenuation 0); the tied attenuation 12 combined
with channel 1's own offset maps channel 1's sample 1000 to -999, far
below `newmin - 1 = -1`. -/
theorem C7_counterexample :
    (setDesiredRange 1 2 = (1, 1) ∧
      AutoRanger.getRunningOutput 1
        ([fun _ => (2 : ℤ), fun _ => 14].foldl
          (AutoRanger.updateFromSample 1)
          ⟨fun _ => 32767, fun _ => -32768, 1, 1, false, false, 0,
            fun _ => 0, fun _ => 0⟩)
        (fun _ => 2) (fun _ => 0) 0 = -1 ∧
      ¬((1 : ℤ) - 1 ≤ -1)) ∧
    (setDesiredRange 0 2 = (1, 1) ∧
      AutoRanger.getRunningOutput 2
        ([fun c => if c = 0 then (0 : ℤ) else 1000,
          fun c => if c = 0 then 16000 else 1000].foldl
          (AutoRanger.updateFromSample 2)
          ⟨fun _ => 32767, fun _ => -32768, 1, 1, true, false, 0,
            fun _ => 0, fun _ => 0⟩)
        (fun _ => 1000) (fun _ => 0) 1 = -999 ∧
      ¬((0 : ℤ) - 1 ≤ -999)) := by
  refine ⟨⟨by decide, by decide, by decide⟩,
    ⟨by decide, by decide, by decide⟩⟩

/-- C7 amended: for an auto-ranger whose desired range was set with
`newmin ≤ newmax` and whose attenuation is NOT channel-tied, every sample
`x` of the stream fed through update_from_sample maps, on its channel, to
a running output within `[newmin - 2, newmax + 1]` (the claimed interval
is off by one on the low side, and channel-tied attenuation - which pairs
another channel's attenuation with this channel's offset - satisfies no
such interval at all).  Stated in the exact signed-arithmetic model. -/
theorem C7_amended (C : ℕ) (ar0 : AutoRanger) (newmin newmax : ℤ)
    (hmw : ar0.middle_wanted = (setDesiredRange newmin newmax).1)
    (hhw : ar0.halfspan_wanted = (setDesiredRange newmin newmax).2)
    (hr : newmin ≤ newmax) (ht : ar0.atten_tied = false)
    (stream : List (ℕ → ℤ)) (c : ℕ) (hc : c < C) (x : ℤ)
    (hx : x ∈ stream.map fun d => d c)
    (indata outdata0 : ℕ → ℤ) (hind : indata c = x) :
    newmin - 2 ≤
      AutoRanger.getRunningOutput C
        (stream.foldl (AutoRanger.updateFromSample C) ar0) indata outdata0
        c ∧
    AutoRanger.getRunningOutput C
        (stream.foldl (AutoRanger.updateFromSample C) ar0) indata outdata0
        c ≤ newmax + 1 := by
  have hf := foldl_updateFromSample_fields C stream ar0
  have hb := foldl_mem_bounds C stream ar0 c hc x hx
  rw [getRunningOutput_untied C _ indata outdata0 c hc (hf.2.2.trans ht),
    hind]
  have hcore := recalcOne_bounds newmin newmax
    ((stream.foldl (AutoRanger.updateFromSample C) ar0).minvals c)
    ((stream.foldl (AutoRanger.updateFromSample C) ar0).maxvals c)
    x hr hb.1 hb.2
  simpa [AutoRanger.runningAtten, AutoRanger.runningOffset,
    hf.1.trans hmw, hf.2.1.trans hhw] using hcore

/-- C7 witness: the untied scenario of the counterexample satisfies the
amended bounds; its output -1 sits exactly at the amended lower limit
`newmin - 2`. -/
theorem C7_amended_witness :
    ((⟨fun _ => 32767, fun _ => -32768, 1, 1, false, false, 0,
        fun _ => 0, fun _ => 0⟩ : AutoRanger).middle_wanted =
      (setDesiredRange 1 2).1) ∧
    ((⟨fun _ => 32767, fun _ => -32768, 1, 1, false, false, 0,
        fun _ => 0, fun _ => 0⟩ : AutoRanger).halfspan_wanted =
      (setDesiredRange 1 2).2) ∧
    ((1 : ℤ) ≤ 2) ∧
    ((2 : ℤ) ∈ [fun _ => (2 : ℤ), fun _ => 14].map fun d => d 0) ∧
    ((1 : ℤ) - 2 ≤
      AutoRanger.getRunningOutput 1
        ([fun _ => (2 : ℤ), fun _ => 14].foldl
          (AutoRanger.updateFromSample 1)
          ⟨fun _ => 32767, fun _ => -32768, 1, 1, false, false, 0,
            fun _ => 0, fun _ => 0⟩)
        (fun _ => 2) (fun _ => 0) 0 ∧
      AutoRanger.getRunningOutput 1
        ([fun _ => (2 : ℤ), fun _ => 14].foldl
          (AutoRanger.updateFromSample 1)
          ⟨fun _ => 32767, fun _ => -32768, 1, 1, false, false, 0,
            fun _ => 0, fun _ => 0⟩)
        (fun _ => 2) (fun _ => 0) 0 ≤ (2 : ℤ) + 1) :=
  ⟨by decide, by decide, by decide, by decide,
    C7_amended 1
      ⟨fun _ => 32767, fun _ => -32768, 1, 1, false, false, 0,
        fun _ => 0, fun _ => 0⟩
      1 2 (by decide) (by decide) (by decide) (by decide)
      [fun _ => (2 : ℤ), fun _ => 14] 0 (by decide) 2 (by decide)
      (fun _ => 2) (fun _ => 0) rfl⟩

end NeuroLoop
